import Mathlib

/-!
Verification of the `rfc3339` crate (src/lib.rs): a Unix-timestamp to
RFC3339 string formatter built on Peter Baum's Rata Die calendar
algorithm.

The shallow embedding models Rust `u64`/`u32` arithmetic over `ℕ` with
explicit reduction modulo `2^64` / `2^32` at every operation where the
source can overflow (the crate's documented behaviour is silent
wraparound, i.e. release-mode semantics).  Array indexing — the one
operation that panics in every build mode — is modelled by an `Option`
result: `rdn_to_ymd` returns `none` exactly when `DAY_OFFSETS[m]` would
be out of bounds.  String formatting models the `std` build of the crate
(growable `String`; `write!` is infallible there): `{:04}`/`{:02}`/`{:06}`
zero-pad to a minimum width and never truncate.
-/

/-! ### Machine arithmetic -/

/-- `2^64`, the wraparound modulus of Rust `u64`. -/
def U64 : ℕ := 18446744073709551616

/-- `2^32`, the wraparound modulus of Rust `u32`. -/
def U32 : ℕ := 4294967296

/-- Wrapping `u64` addition. -/
def wadd (x y : ℕ) : ℕ := (x + y) % U64

/-- Wrapping `u64` multiplication. -/
def wmul (x y : ℕ) : ℕ := (x * y) % U64

/-- Wrapping `u64` subtraction (two's complement), for `x, y < 2^64`. -/
def wsub (x y : ℕ) : ℕ := (x + U64 - y) % U64

/-! ### Source constants (src/lib.rs lines 37-40) -/

def SECONDS_PER_DAY : ℕ := 86400

def DAY_OFFSETS : List ℕ := [0, 306, 337, 0, 31, 61, 92, 122, 153, 184, 214, 245, 275]

/-- Unix epoch in seconds (Gregorian calendar). -/
def UNIX_EPOCH : ℕ := 62135683200

/-! ### `rdn_to_ymd` (src/lib.rs lines 81-96)

Each `let` of the source is a definition, so that the claims about the
intermediate values (`d`, `m`) can be stated directly. -/

/-- `let z = rdn + 306;` -/
def ymdZ (rdn : ℕ) : ℕ := wadd rdn 306

/-- `let h = 100 * z - 25;` -/
def ymdH (rdn : ℕ) : ℕ := wsub (wmul 100 (ymdZ rdn)) 25

/-- `let a = h / 3652425;` -/
def ymdA (rdn : ℕ) : ℕ := ymdH rdn / 3652425

/-- `let b = a - (a >> 2);` (never underflows: `a >> 2 ≤ a`). -/
def ymdB (rdn : ℕ) : ℕ := ymdA rdn - ymdA rdn / 4

/-- `let mut y = (100 * b + h) / 36525;` -/
def ymdY0 (rdn : ℕ) : ℕ := wadd (wmul 100 (ymdB rdn)) (ymdH rdn) / 36525

/-- `let d = b + z - (1461 * y >> 2);` -/
def ymdD (rdn : ℕ) : ℕ := wsub (wadd (ymdB rdn) (ymdZ rdn)) (wmul 1461 (ymdY0 rdn) / 4)

/-- `let mut m = (535 * d + 48950) >> 14;` -/
def ymdM0 (rdn : ℕ) : ℕ := wadd (wmul 535 (ymdD rdn)) 48950 / 16384

/-- `y` after the `if m > 12 { y += 1; }` adjustment. -/
def ymdY1 (rdn : ℕ) : ℕ := if 12 < ymdM0 rdn then ymdY0 rdn + 1 else ymdY0 rdn

/-- `m` after the `if m > 12 { m -= 12; }` adjustment. -/
def ymdM (rdn : ℕ) : ℕ := if 12 < ymdM0 rdn then ymdM0 rdn - 12 else ymdM0 rdn

/-- Rata Die algorithm by Peter Baum.
`(y as u32, m as u32, (d - DAY_OFFSETS[m as usize]) as u32)`;
`none` models the out-of-bounds panic of `DAY_OFFSETS[m as usize]`
(in the `some` branch the index is in bounds, so `getD _ 0` is exactly
the source's indexing). -/
def rdn_to_ymd (rdn : ℕ) : Option (ℕ × ℕ × ℕ) :=
  if ymdM rdn < DAY_OFFSETS.length then
    some (ymdY1 rdn % U32, ymdM rdn % U32,
      wsub (ymdD rdn) (DAY_OFFSETS.getD (ymdM rdn) 0) % U32)
  else none

/-! ### Decimal rendering (the semantics of `write!("{:04}...", ...)`)

`natDigits n` is the list of decimal digits of `n`, most significant
first (what Rust `Display` for an unsigned integer prints); the fuel
`24` is immaterial: every value the crate formats is below `2^64 < 10^24`.
`padNum w n` is `{:0w}`: left-pad with `'0'` to minimum width `w`,
never truncate. -/

def digitsAux : ℕ → ℕ → List Char
  | 0, _ => []
  | fuel + 1, n =>
    if n < 10 then [Nat.digitChar n]
    else digitsAux fuel (n / 10) ++ [Nat.digitChar (n % 10)]

def natDigits (n : ℕ) : List Char := digitsAux 24 n

def padNum (w n : ℕ) : List Char :=
  List.replicate (w - (natDigits n).length) '0' ++ natDigits n

/-! ### `format_unix` (src/lib.rs lines 63-78) -/

/-- Converts a Unix timestamp into an RFC3339 formatted date-time string
in UTC.  `"{:04}-{:02}-{:02}T{:02}:{:02}:{:02}.{:06}Z"`. -/
def format_unix (seconds micros : ℕ) : Option String :=
  (rdn_to_ymd (wadd seconds UNIX_EPOCH / SECONDS_PER_DAY)).map fun ymd =>
    let year := ymd.1
    let month := ymd.2.1
    let day := ymd.2.2
    let sec := wadd seconds UNIX_EPOCH % SECONDS_PER_DAY
    let hour := sec / 3600
    let minute := sec % 3600 / 60
    let second := sec % 60
    String.mk (padNum 4 year ++ '-' :: padNum 2 month ++ '-' :: padNum 2 day
      ++ 'T' :: padNum 2 hour ++ ':' :: padNum 2 minute ++ ':' :: padNum 2 second
      ++ '.' :: padNum 6 micros ++ ['Z'])

/-! ### Specification-side calendar vocabulary

These definitions express the proleptic-Gregorian calendar facts the
claims talk about; they are not part of the program. -/

/-- Gregorian leap-year rule: divisible by 4 and not by 100, or by 400. -/
def leap (y : ℕ) : Bool := (y % 4 == 0 && y % 100 != 0) || y % 400 == 0

/-- Number of days of month `m` of year `y` in the proleptic Gregorian
calendar. -/
def daysInMonth (y m : ℕ) : ℕ :=
  if m = 2 then (if leap y then 29 else 28)
  else if m = 4 ∨ m = 6 ∨ m = 9 ∨ m = 11 then 30 else 31

/-- `(y, m, d)` is a valid proleptic-Gregorian calendar date. -/
def ValidDate (t : ℕ × ℕ × ℕ) : Prop :=
  1 ≤ t.2.1 ∧ t.2.1 ≤ 12 ∧ 1 ≤ t.2.2 ∧ t.2.2 ≤ daysInMonth t.1 t.2.1

instance (t : ℕ × ℕ × ℕ) : Decidable (ValidDate t) := by
  unfold ValidDate; infer_instance

/-- The calendar day immediately following `(y, m, d)` in the proleptic
Gregorian calendar. -/
def gregSucc : ℕ × ℕ × ℕ → ℕ × ℕ × ℕ
  | (y, m, d) =>
    if d < daysInMonth y m then (y, m, d + 1)
    else if m < 12 then (y, m + 1, 1) else (y + 1, 1, 1)

/-- Number of days strictly before the March-based year `y`, counted in
the algorithm's shifted scale (`z = rdn + 306`): the March-based year
`y` (running 1 March of civil year `y` through end of February of civil
year `y+1`) occupies exactly the `z` with `Fdays y < z ≤ Fdays (y+1)`. -/
def Fdays (y : ℕ) : ℕ := 365 * y + y / 4 - y / 100 + y / 400

/-- The month formula of the algorithm, as a function of the day `d`
of the March-based year (`1 ≤ d ≤ 366`): yields `3..14`, where `13`,
`14` mean January / February of the next civil year. -/
def marchMonth (d : ℕ) : ℕ := (535 * d + 48950) / 16384

/-- Days strictly before month `m` (March-based numbering `3..14`)
inside a March-based year. -/
def marchOffs : ℕ → ℕ
  | 3 => 0 | 4 => 31 | 5 => 61 | 6 => 92 | 7 => 122 | 8 => 153
  | 9 => 184 | 10 => 214 | 11 => 245 | 12 => 275 | 13 => 306 | 14 => 337
  | _ => 0

/-- Length of month `m` in the March-based numbering (February gets its
leap-year maximum, 29; the non-leap case is handled separately). -/
def marchLen : ℕ → ℕ
  | 4 => 30 | 6 => 30 | 9 => 30 | 11 => 30 | 14 => 29 | _ => 31

/-! ### Core calendar lemmas -/

def RMAX : ℕ := 213503982334601

theorem wadd_eq (x y : ℕ) (h : x + y < U64) : wadd x y = x + y :=
  Nat.mod_eq_of_lt h

theorem wmul_eq (x y : ℕ) (h : x * y < U64) : wmul x y = x * y :=
  Nat.mod_eq_of_lt h

theorem wsub_eq (x y : ℕ) (h1 : y ≤ x) (h2 : x < U64) : wsub x y = x - y := by
  unfold wsub U64 at *; omega

theorem Fdays_add_one (y : ℕ) :
    Fdays y + 365 ≤ Fdays (y + 1) ∧ Fdays (y + 1) ≤ Fdays y + 366 := by
  unfold Fdays; omega

theorem Fdays_mono : Monotone Fdays :=
  monotone_nat_of_le_succ fun y => by have := Fdays_add_one y; omega

theorem exists_march_year (z : ℕ) (hz : 1 ≤ z) :
    ∃ y, Fdays y < z ∧ z ≤ Fdays (y + 1) := by
  induction z with
  | zero => omega
  | succ n ih =>
    rcases Nat.eq_zero_or_pos n with h0 | hpos
    · subst h0
      exact ⟨0, by unfold Fdays; omega, by unfold Fdays; omega⟩
    · obtain ⟨y, hy1, hy2⟩ := ih hpos
      rcases Nat.lt_or_ge n (Fdays (y + 1)) with hlt | hge
      · exact ⟨y, by omega, by omega⟩
      · have h365 := Fdays_add_one (y + 1)
        exact ⟨y + 1, by omega, by omega⟩

section Master

variable (rdn y : ℕ)

theorem yearBound (h1 : Fdays y < rdn + 306) (hr : rdn ≤ RMAX) :
    y ≤ 600000000000 := by
  unfold Fdays at h1; unfold RMAX at hr; omega

theorem ymdZ_eq (hr : rdn ≤ RMAX) : ymdZ rdn = rdn + 306 :=
  wadd_eq _ _ (by unfold U64 RMAX at *; omega)

theorem ymdH_eq (hr : rdn ≤ RMAX) : ymdH rdn = 100 * (rdn + 306) - 25 := by
  unfold ymdH
  rw [ymdZ_eq rdn hr, wmul_eq _ _ (by unfold U64 RMAX at *; omega),
    wsub_eq _ _ (by omega) (by unfold U64 RMAX at *; omega)]

set_option maxHeartbeats 1000000 in
theorem ymdA_eq (hr : rdn ≤ RMAX) (h1 : Fdays y < rdn + 306)
    (h2 : rdn + 306 ≤ Fdays (y + 1)) : ymdA rdn = y / 100 := by
  unfold ymdA
  rw [ymdH_eq rdn hr]
  have hm1 : Fdays (100 * (y / 100)) ≤ Fdays y := Fdays_mono (by omega)
  have hm2 : Fdays (y + 1) ≤ Fdays (100 * (y / 100) + 100) := Fdays_mono (by omega)
  unfold Fdays at h1 h2 hm1 hm2
  omega

theorem ymdB_eq (hr : rdn ≤ RMAX) (h1 : Fdays y < rdn + 306)
    (h2 : rdn + 306 ≤ Fdays (y + 1)) : ymdB rdn = y / 100 - y / 400 := by
  unfold ymdB
  rw [ymdA_eq rdn y hr h1 h2, Nat.div_div_eq_div_mul]

set_option maxHeartbeats 1000000 in
theorem ymdY0_eq (hr : rdn ≤ RMAX) (h1 : Fdays y < rdn + 306)
    (h2 : rdn + 306 ≤ Fdays (y + 1)) : ymdY0 rdn = y := by
  have hy := yearBound rdn y h1 hr
  unfold ymdY0
  rw [ymdB_eq rdn y hr h1 h2, ymdH_eq rdn hr,
    wmul_eq _ _ (by unfold U64 at *; omega),
    wadd_eq _ _ (by unfold U64 RMAX at *; omega)]
  unfold Fdays at h1 h2
  omega

set_option maxHeartbeats 1000000 in
theorem ymdD_eq (hr : rdn ≤ RMAX) (h1 : Fdays y < rdn + 306)
    (h2 : rdn + 306 ≤ Fdays (y + 1)) :
    ymdD rdn = rdn + 306 - Fdays y := by
  have hy := yearBound rdn y h1 hr
  unfold ymdD
  rw [ymdB_eq rdn y hr h1 h2, ymdZ_eq rdn hr, ymdY0_eq rdn y hr h1 h2,
    wmul_eq _ _ (by unfold U64 at *; omega),
    wadd_eq _ _ (by unfold U64 RMAX at *; omega),
    wsub_eq _ _ (by unfold Fdays at h1; omega) (by unfold U64 RMAX at *; omega)]
  unfold Fdays at h1 ⊢
  omega

theorem ymdM0_eq (hr : rdn ≤ RMAX) (h1 : Fdays y < rdn + 306)
    (h2 : rdn + 306 ≤ Fdays (y + 1)) :
    ymdM0 rdn = marchMonth (rdn + 306 - Fdays y) := by
  have h366 := Fdays_add_one y
  unfold ymdM0 marchMonth
  rw [ymdD_eq rdn y hr h1 h2,
    wmul_eq _ _ (by unfold U64 at *; omega),
    wadd_eq _ _ (by unfold U64 at *; omega)]

end Master

/-- What the algorithm returns for day `d` (`1 ≤ d ≤ 366`) of the
March-based year `y`, phrased on the civil calendar. -/
def civilOf (y d : ℕ) : ℕ × ℕ × ℕ :=
  if 12 < marchMonth d then ((y + 1) % U32, marchMonth d - 12, d - marchOffs (marchMonth d))
  else (y % U32, marchMonth d, d - marchOffs (marchMonth d))

set_option maxRecDepth 4000 in
theorem monthTable : ∀ d < 367, 1 ≤ d →
    3 ≤ marchMonth d ∧ marchMonth d ≤ 14 ∧
    marchOffs (marchMonth d) < d ∧
    d ≤ marchOffs (marchMonth d) + marchLen (marchMonth d) ∧
    d - marchOffs (marchMonth d) ≤ 31 := by decide

theorem dayOffsHigh : ∀ m0 < 15, 13 ≤ m0 → DAY_OFFSETS.getD (m0 - 12) 0 = marchOffs m0 := by
  decide

theorem dayOffsLow : ∀ m0 < 13, 3 ≤ m0 → DAY_OFFSETS.getD m0 0 = marchOffs m0 := by
  decide

theorem rdn_assemble (rdn y d m0 : ℕ)
    (hM0 : ymdM0 rdn = m0) (hDeq : ymdD rdn = d) (hY0 : ymdY0 rdn = y)
    (h3 : 3 ≤ m0) (h14 : m0 ≤ 14) (hoff : marchOffs m0 < d)
    (h31 : d - marchOffs m0 ≤ 31) (hdhi : d ≤ 366) :
    rdn_to_ymd rdn = some (if 12 < m0 then ((y + 1) % U32, m0 - 12, d - marchOffs m0)
      else (y % U32, m0, d - marchOffs m0)) := by
  have hw : wsub d (marchOffs m0) = d - marchOffs m0 :=
    wsub_eq _ _ (by omega) (by unfold U64; omega)
  unfold rdn_to_ymd ymdM ymdY1
  rw [hM0, hDeq, hY0]
  rcases Nat.lt_or_ge 12 m0 with hgt | hle
  · simp only [if_pos hgt]
    rw [if_pos (show m0 - 12 < DAY_OFFSETS.length by show m0 - 12 < 13; omega)]
    rw [dayOffsHigh m0 (by omega) (by omega), hw,
      Nat.mod_eq_of_lt (show m0 - 12 < U32 by unfold U32; omega),
      Nat.mod_eq_of_lt (show d - marchOffs m0 < U32 by unfold U32; omega)]
  · simp only [if_neg (show ¬ 12 < m0 by omega)]
    rw [if_pos (show m0 < DAY_OFFSETS.length by show m0 < 13; omega)]
    rw [dayOffsLow m0 (by omega) (by omega), hw,
      Nat.mod_eq_of_lt (show m0 < U32 by unfold U32; omega),
      Nat.mod_eq_of_lt (show d - marchOffs m0 < U32 by unfold U32; omega)]

theorem rdn_to_ymd_eq (rdn y : ℕ) (hr : rdn ≤ RMAX) (h1 : Fdays y < rdn + 306)
    (h2 : rdn + 306 ≤ Fdays (y + 1)) :
    rdn_to_ymd rdn = some (civilOf y (rdn + 306 - Fdays y)) := by
  have h366 := Fdays_add_one y
  have hdlo : 1 ≤ rdn + 306 - Fdays y := by omega
  have hdhi : rdn + 306 - Fdays y ≤ 366 := by omega
  obtain ⟨h3, h14, hoff, hlen, h31⟩ := monthTable (rdn + 306 - Fdays y) (by omega) hdlo
  unfold civilOf
  exact rdn_assemble rdn y (rdn + 306 - Fdays y) (marchMonth (rdn + 306 - Fdays y))
    (ymdM0_eq rdn y hr h1 h2) (ymdD_eq rdn y hr h1 h2) (ymdY0_eq rdn y hr h1 h2)
    h3 h14 hoff h31 hdhi

theorem leap_iff (y : ℕ) :
    leap y = true ↔ ((y % 4 = 0 ∧ y % 100 ≠ 0) ∨ y % 400 = 0) := by
  unfold leap
  simp [Bool.or_eq_true, Bool.and_eq_true, beq_iff_eq, bne_iff_ne]

set_option maxHeartbeats 1600000 in
theorem Fdays_succ_leap (y : ℕ) :
    Fdays (y + 1) = Fdays y + 365 + (if leap (y + 1) then 1 else 0) := by
  rcases hl : leap (y + 1)
  · have hx := (not_iff_not.mpr (leap_iff (y + 1))).mp (by simp [hl])
    simp only [Bool.false_eq_true, if_false]
    unfold Fdays; omega
  · have hx := (leap_iff (y + 1)).mp hl
    simp only [if_true]
    unfold Fdays; omega

theorem daysInMonth_march (m0 : ℕ) (h3 : 3 ≤ m0) (h13 : m0 ≤ 13) (y : ℕ) :
    daysInMonth y (if 12 < m0 then m0 - 12 else m0) = marchLen m0 := by
  interval_cases m0 <;> rfl

theorem daysInMonth_feb (y : ℕ) :
    daysInMonth y 2 = if leap y then 29 else 28 := rfl

theorem rdnReach (s : ℕ) : wadd s UNIX_EPOCH / SECONDS_PER_DAY ≤ RMAX := by
  have h : wadd s UNIX_EPOCH < U64 := Nat.mod_lt _ (by unfold U64; omega)
  unfold U64 at h
  unfold SECONDS_PER_DAY RMAX
  omega

theorem index_safe (rdn : ℕ) (hr : rdn ≤ RMAX) :
    1 ≤ ymdM rdn ∧ ymdM rdn < DAY_OFFSETS.length ∧
    DAY_OFFSETS.getD (ymdM rdn) 0 ≤ ymdD rdn := by
  obtain ⟨y, h1, h2⟩ := exists_march_year (rdn + 306) (by omega)
  have h366 := Fdays_add_one y
  have hdlo : 1 ≤ rdn + 306 - Fdays y := by omega
  obtain ⟨h3, h14, hoff, hlen, h31⟩ := monthTable (rdn + 306 - Fdays y) (by omega) hdlo
  have hM0 := ymdM0_eq rdn y hr h1 h2
  have hDeq := ymdD_eq rdn y hr h1 h2
  have hMeq : ymdM rdn = if 12 < marchMonth (rdn + 306 - Fdays y)
      then marchMonth (rdn + 306 - Fdays y) - 12
      else marchMonth (rdn + 306 - Fdays y) := by
    unfold ymdM; rw [hM0]
  refine ⟨?_, ?_, ?_⟩
  · rw [hMeq]; split <;> omega
  · show ymdM rdn < 13
    rw [hMeq]; split <;> omega
  · rw [hMeq, hDeq]
    rcases Nat.lt_or_ge 12 (marchMonth (rdn + 306 - Fdays y)) with hgt | hle
    · rw [if_pos hgt, dayOffsHigh _ (by omega) (by omega)]
      omega
    · rw [if_neg (by omega), dayOffsLow _ (by omega) (by omega)]
      omega

/-- Claim C10: for every day count reachable from `format_unix`
(every `(seconds + UNIX_EPOCH) / 86400` with `seconds` a `u64`), the
adjusted month `m` lies in `1..=12`, so the index into the 13-entry
`DAY_OFFSETS` table is in bounds, and `d ≥ DAY_OFFSETS[m]`, so the
day-of-month subtraction never underflows. -/
theorem c10_index_safe (s : ℕ) (hs : s < U64) :
    1 ≤ ymdM (wadd s UNIX_EPOCH / SECONDS_PER_DAY) ∧
    ymdM (wadd s UNIX_EPOCH / SECONDS_PER_DAY) < DAY_OFFSETS.length ∧
    DAY_OFFSETS.getD (ymdM (wadd s UNIX_EPOCH / SECONDS_PER_DAY)) 0 ≤
      ymdD (wadd s UNIX_EPOCH / SECONDS_PER_DAY) :=
  index_safe _ (rdnReach s)

/-- Claim C8: `format_unix` is total — for every `u64` seconds value
and every `u32` micros value it produces a string; in particular the
table access inside `rdn_to_ymd` is always in bounds, and the
arithmetic (including `seconds + UNIX_EPOCH`, which follows the
crate's documented wraparound policy) always completes. -/
theorem c8_total (s μ : ℕ) (hs : s < U64) (hμ : μ < U32) :
    (format_unix s μ).isSome = true := by
  have hr := rdnReach s
  obtain ⟨y, h1, h2⟩ := exists_march_year (wadd s UNIX_EPOCH / SECONDS_PER_DAY + 306)
    (le_trans (by norm_num) (Nat.le_add_left 306 _))
  unfold format_unix
  rw [rdn_to_ymd_eq _ y hr h1 h2]
  rfl

theorem validDate_mk (a b c : ℕ) :
    ValidDate (a, b, c) ↔ (1 ≤ b ∧ b ≤ 12 ∧ 1 ≤ c ∧ c ≤ daysInMonth a b) := Iff.rfl

theorem civil_valid (y d : ℕ) (hy : y + 1 < U32) (hdlo : 1 ≤ d)
    (hdmax : d ≤ 365 + (if leap (y + 1) then 1 else 0)) :
    ValidDate (civilOf y d) := by
  have hd366 : d ≤ 366 := by split at hdmax <;> omega
  obtain ⟨h3, h14, hoff, hlen, h31⟩ := monthTable d (by omega) hdlo
  have hy1 : (y + 1) % U32 = y + 1 := Nat.mod_eq_of_lt hy
  have hyy : y % U32 = y := Nat.mod_eq_of_lt (by omega)
  unfold civilOf
  rcases Nat.lt_or_ge 12 (marchMonth d) with hgt | hle
  · rw [if_pos hgt, hy1, validDate_mk]
    rcases (show marchMonth d = 13 ∨ marchMonth d = 14 by omega) with h13 | h13 <;>
      rw [h13] <;> rw [h13] at hoff hlen
    · have e1 : marchOffs 13 = 306 := rfl
      have e2 : marchLen 13 = 31 := rfl
      have e3 : daysInMonth (y + 1) (13 - 12) = 31 := rfl
      rw [e3]
      omega
    · have e1 : marchOffs 14 = 337 := rfl
      have e2 : marchLen 14 = 29 := rfl
      have e3 : daysInMonth (y + 1) (14 - 12) = if leap (y + 1) then 29 else 28 := rfl
      rw [e3]
      have hleapsplit :
          ((if leap (y + 1) then (1 : ℕ) else 0) = 1 ∧
            (if leap (y + 1) then (29 : ℕ) else 28) = 29) ∨
          ((if leap (y + 1) then (1 : ℕ) else 0) = 0 ∧
            (if leap (y + 1) then (29 : ℕ) else 28) = 28) := by
        rcases leap (y + 1) with _ | _ <;> simp
      omega
  · rw [if_neg (by omega), hyy, validDate_mk]
    have hdm := daysInMonth_march (marchMonth d) h3 (by omega) y
    rw [if_neg (by omega)] at hdm
    rw [hdm]
    have hml : marchLen (marchMonth d) ≤ 31 := by
      rcases (show marchMonth d = 3 ∨ marchMonth d = 4 ∨ marchMonth d = 5 ∨ marchMonth d = 6
        ∨ marchMonth d = 7 ∨ marchMonth d = 8 ∨ marchMonth d = 9 ∨ marchMonth d = 10
        ∨ marchMonth d = 11 ∨ marchMonth d = 12 by omega) with h | h | h | h | h | h | h | h | h | h <;>
        rw [h] <;> decide
    omega

/-- Claim C3 (amended): for day counts up to 1.5 * 10^12 (civil years up
to about 4.1 * 10^9, within the `u32` year range) the returned triple is
a valid proleptic-Gregorian date. -/
theorem c3_valid (rdn : ℕ) (hb : rdn ≤ 1500000000000) (t : ℕ × ℕ × ℕ)
    (ht : rdn_to_ymd rdn = some t) : ValidDate t := by
  obtain ⟨y, h1, h2⟩ := exists_march_year (rdn + 306) (by omega)
  have hr : rdn ≤ RMAX := by unfold RMAX; omega
  rw [rdn_to_ymd_eq rdn y hr h1 h2] at ht
  injection ht with ht
  rw [← ht]
  have hsl := Fdays_succ_leap y
  apply civil_valid
  · unfold Fdays at h1
    unfold U32
    omega
  · omega
  · omega

set_option maxRecDepth 4000 in
theorem monthStep : ∀ d < 366, 1 ≤ d →
    marchMonth (d + 1) = marchMonth d ∨
    (marchMonth (d + 1) = marchMonth d + 1 ∧ marchMonth d ≤ 13) := by decide

theorem offsLen : ∀ m < 14, 3 ≤ m → marchOffs m + marchLen m = marchOffs (m + 1) := by
  decide

theorem gregSucc_mk (a b c : ℕ) :
    gregSucc (a, b, c) = if c < daysInMonth a b then (a, b, c + 1)
      else if b < 12 then (a, b + 1, 1) else (a + 1, 1, 1) := rfl

theorem civil_newyear (y : ℕ) (hy : y + 1 < U32) :
    civilOf (y + 1) 1 = gregSucc (civilOf y (365 + (if leap (y + 1) then 1 else 0))) := by
  have hs2 : (y + 1) % U32 = y + 1 := Nat.mod_eq_of_lt hy
  have hm1 : marchMonth 1 = 3 := rfl
  rcases hlp : leap (y + 1)
  · have e1 : (365 + (if (false : Bool) then (1 : ℕ) else 0)) = 365 := rfl
    have hm365 : marchMonth 365 = 14 := rfl
    rw [e1]
    unfold civilOf
    rw [hm1, hm365, if_neg (by omega), if_pos (by omega), hs2]
    have eo1 : marchOffs 3 = 0 := rfl
    have eo2 : marchOffs 14 = 337 := rfl
    rw [eo1, eo2, gregSucc_mk, daysInMonth_feb, hlp]
    norm_num
  · have e1 : (365 + (if (true : Bool) then (1 : ℕ) else 0)) = 366 := rfl
    have hm366 : marchMonth 366 = 14 := rfl
    rw [e1]
    unfold civilOf
    rw [hm1, hm366, if_neg (by omega), if_pos (by omega), hs2]
    have eo1 : marchOffs 3 = 0 := rfl
    have eo2 : marchOffs 14 = 337 := rfl
    rw [eo1, eo2, gregSucc_mk, daysInMonth_feb, hlp]
    norm_num

theorem civil_succ (y d : ℕ) (hy : y + 1 < U32) (hdlo : 1 ≤ d)
    (hdmax : d + 1 ≤ 365 + (if leap (y + 1) then 1 else 0)) :
    civilOf y (d + 1) = gregSucc (civilOf y d) := by
  have hleapsplit :
      ((if leap (y + 1) then (1 : ℕ) else 0) = 1 ∧
        (if leap (y + 1) then (29 : ℕ) else 28) = 29) ∨
      ((if leap (y + 1) then (1 : ℕ) else 0) = 0 ∧
        (if leap (y + 1) then (29 : ℕ) else 28) = 28) := by
    rcases leap (y + 1) with _ | _ <;> simp
  have hd366 : d + 1 ≤ 366 := by omega
  have hs1 : y % U32 = y := Nat.mod_eq_of_lt (by omega)
  have hs2 : (y + 1) % U32 = y + 1 := Nat.mod_eq_of_lt hy
  obtain ⟨h3, h14, hoff, hlen, h31⟩ := monthTable d (by omega) hdlo
  obtain ⟨h3', h14', hoff', hlen', h31'⟩ := monthTable (d + 1) (by omega) (by omega)
  rcases monthStep d (by omega) hdlo with heq | ⟨hsucc, hm13⟩
  · -- the next day falls in the same March-based month
    rw [heq] at hoff' hlen' h31'
    unfold civilOf
    rw [heq]
    rcases Nat.lt_or_ge 12 (marchMonth d) with hgt | hle
    · rw [if_pos hgt, if_pos hgt, hs2]
      rcases (show marchMonth d = 13 ∨ marchMonth d = 14 by omega) with h13 | h13 <;>
        rw [h13] at hoff hlen hoff' hlen' ⊢
      · have eo : marchOffs 13 = 306 := rfl
        have el : marchLen 13 = 31 := rfl
        have hdim : daysInMonth (y + 1) (13 - 12) = 31 := rfl
        rw [gregSucc_mk, hdim, if_pos (by omega)]
        have hstep : d + 1 - marchOffs 13 = (d - marchOffs 13) + 1 := by
          rw [eo]; omega
        rw [hstep]
      · have eo : marchOffs 14 = 337 := rfl
        have el : marchLen 14 = 29 := rfl
        have hdim : daysInMonth (y + 1) (14 - 12) = if leap (y + 1) then 29 else 28 := rfl
        rw [gregSucc_mk, hdim, if_pos (by omega)]
        have hstep : d + 1 - marchOffs 14 = (d - marchOffs 14) + 1 := by
          rw [eo]; omega
        rw [hstep]
    · rw [if_neg (by omega), if_neg (by omega), hs1]
      have hdim := daysInMonth_march (marchMonth d) h3 (by omega) y
      rw [if_neg (by omega)] at hdim
      rw [gregSucc_mk, hdim, if_pos (by omega)]
      have hstep : d + 1 - marchOffs (marchMonth d) = (d - marchOffs (marchMonth d)) + 1 := by
        omega
      rw [hstep]
  · -- the next day starts the next March-based month
    have hdeq : d = marchOffs (marchMonth d + 1) := by
      have hol := offsLen (marchMonth d) (by omega) h3
      rw [hsucc] at hoff'
      omega
    unfold civilOf
    rw [hsucc]
    rcases (show marchMonth d ≤ 11 ∨ marchMonth d = 12 ∨ marchMonth d = 13 by omega)
      with hm | hm | hm
    · rw [if_neg (by omega), if_neg (by omega), hs1]
      have hdim := daysInMonth_march (marchMonth d) h3 (by omega) y
      rw [if_neg (by omega)] at hdim
      have hol := offsLen (marchMonth d) (by omega) h3
      rw [gregSucc_mk, hdim, if_neg (by omega), if_pos (by omega)]
      have hday : d + 1 - marchOffs (marchMonth d + 1) = 1 := by omega
      rw [hday]
    · rw [hm] at hdeq hoff hlen ⊢
      rw [if_pos (by omega), if_neg (by omega), hs1, hs2]
      have eo13 : marchOffs (12 + 1) = 306 := rfl
      have eo12 : marchOffs 12 = 275 := rfl
      have hdim : daysInMonth y 12 = 31 := rfl
      rw [gregSucc_mk, hdim, eo13, eo12, if_neg (by omega), if_neg (by omega)]
      have hday : d + 1 - 306 = 1 := by omega
      rw [hday]
    · rw [hm] at hdeq hoff hlen ⊢
      rw [if_pos (by omega), if_pos (by omega), hs2]
      have eo14 : marchOffs (13 + 1) = 337 := rfl
      have eo13 : marchOffs 13 = 306 := rfl
      have hdim : daysInMonth (y + 1) (13 - 12) = 31 := rfl
      rw [gregSucc_mk, hdim, eo14, eo13, if_neg (by omega), if_pos (by omega)]
      have hday : d + 1 - 337 = 1 := by omega
      rw [hday]

/-- Claim C4 (amended): for day counts up to 1.5 * 10^12 the Calendar
Converter maps `n + 1` to the proleptic-Gregorian successor of the date
it assigns to `n`. -/
theorem c4_succ (n : ℕ) (hb : n ≤ 1500000000000) (t : ℕ × ℕ × ℕ)
    (ht : rdn_to_ymd n = some t) : rdn_to_ymd (n + 1) = some (gregSucc t) := by
  obtain ⟨y, h1, h2⟩ := exists_march_year (n + 306) (by omega)
  have hr : n ≤ RMAX := by unfold RMAX; omega
  have hr' : n + 1 ≤ RMAX := by unfold RMAX; omega
  have hy : y + 1 < U32 := by unfold Fdays at h1; unfold U32; omega
  rw [rdn_to_ymd_eq n y hr h1 h2] at ht
  injection ht with ht
  rw [← ht]
  have hsl := Fdays_succ_leap y
  rcases Nat.lt_or_ge (Fdays (y + 1)) (n + 307) with hcase | hcase
  · -- the whole March-based year `y` is exhausted: new-year step
    have hz : n + 306 = Fdays (y + 1) := by omega
    have h366' := Fdays_add_one (y + 1)
    rw [rdn_to_ymd_eq (n + 1) (y + 1) hr' (by omega) (by omega)]
    have hd1 : n + 1 + 306 - Fdays (y + 1) = 1 := by omega
    rw [hd1]
    have hdval : n + 306 - Fdays y = 365 + (if leap (y + 1) then 1 else 0) := by omega
    rw [hdval, civil_newyear y hy]
  · -- `n + 1` stays inside the March-based year `y`
    rw [rdn_to_ymd_eq (n + 1) y hr' (by omega) (by omega)]
    have hrw : n + 1 + 306 - Fdays y = (n + 306 - Fdays y) + 1 := by omega
    rw [hrw, civil_succ y (n + 306 - Fdays y) hy (by omega) (by omega)]

/-! ### Decimal digit strings -/

/-- The exactly-`w`-wide decimal rendering of `n` (defined for `n < 10^w`). -/
def toDigitsW : ℕ → ℕ → List Char
  | 0, _ => []
  | w + 1, n => toDigitsW w (n / 10) ++ [Nat.digitChar (n % 10)]

theorem toDigitsW_length (w : ℕ) : ∀ n, (toDigitsW w n).length = w := by
  induction w with
  | zero => intro n; rfl
  | succ w ih =>
    intro n
    show (toDigitsW w (n / 10) ++ [Nat.digitChar (n % 10)]).length = w + 1
    rw [List.length_append, ih]
    rfl

theorem toDigitsW_cons0 (w : ℕ) : ∀ n, n < 10 ^ w →
    toDigitsW (w + 1) n = '0' :: toDigitsW w n := by
  induction w with
  | zero =>
    intro n hn
    have : n = 0 := by omega
    subst this
    rfl
  | succ w ih =>
    intro n hn
    have hd : n / 10 < 10 ^ w := by
      rw [pow_succ] at hn
      omega
    show toDigitsW (w + 1) (n / 10) ++ [Nat.digitChar (n % 10)] = '0' :: toDigitsW (w + 1) n
    rw [ih (n / 10) hd]
    rfl

theorem digitsAux_spec (fuel : ℕ) : ∀ n, 1 ≤ fuel → n < 10 ^ fuel →
    digitsAux fuel n = toDigitsW (digitsAux fuel n).length n ∧
    1 ≤ (digitsAux fuel n).length ∧ n < 10 ^ (digitsAux fuel n).length ∧
    (10 ^ ((digitsAux fuel n).length - 1) ≤ n ∨ (digitsAux fuel n).length = 1) := by
  induction fuel with
  | zero => intro n h0 hn; omega
  | succ fuel ih =>
    intro n hfuel hn
    rcases Nat.lt_or_ge n 10 with hsmall | hbig
    · have he : digitsAux (fuel + 1) n = [Nat.digitChar n] := by
        unfold digitsAux
        rw [if_pos hsmall]
      rw [he]
      refine ⟨?_, by norm_num, ?_, Or.inr rfl⟩
      · show [Nat.digitChar n] = toDigitsW 1 n
        show [Nat.digitChar n] = [] ++ [Nat.digitChar (n % 10)]
        rw [Nat.mod_eq_of_lt hsmall]
        rfl
      · show n < 10 ^ 1
        rw [pow_one]
        exact hsmall
    · have hf : 1 ≤ fuel := by
        rcases Nat.eq_zero_or_pos fuel with h0 | h
        · subst h0
          rw [pow_one] at hn
          omega
        · exact h
      have hd : n / 10 < 10 ^ fuel := by
        rw [pow_succ] at hn
        omega
      obtain ⟨ihe, ih1, ihlt, ihge⟩ := ih (n / 10) hf hd
      have he : digitsAux (fuel + 1) n = digitsAux fuel (n / 10) ++ [Nat.digitChar (n % 10)] := by
        conv_lhs => unfold digitsAux
        rw [if_neg (by omega)]
      have hkey : digitsAux fuel (n / 10) ++ [Nat.digitChar (n % 10)] =
          toDigitsW ((digitsAux fuel (n / 10)).length + 1) n := by
        conv_lhs => rw [ihe]
        rfl
      have hlen2 : (digitsAux fuel (n / 10) ++ [Nat.digitChar (n % 10)]).length =
          (digitsAux fuel (n / 10)).length + 1 := by
        rw [List.length_append]
        rfl
      rw [he, hlen2]
      refine ⟨hkey, by omega, ?_, ?_⟩
      · rw [pow_succ]
        omega
      · left
        have hsimp : (digitsAux fuel (n / 10)).length + 1 - 1 =
            (digitsAux fuel (n / 10)).length := by omega
        rw [hsimp]
        rcases ihge with hge | h1
        · have hLs : (digitsAux fuel (n / 10)).length =
              ((digitsAux fuel (n / 10)).length - 1) + 1 := by omega
          rw [hLs, pow_succ]
          omega
        · rw [h1, pow_one]
          omega

theorem natDigits_spec (n : ℕ) (h : n < 10 ^ 24) :
    natDigits n = toDigitsW (natDigits n).length n ∧
    1 ≤ (natDigits n).length ∧ n < 10 ^ (natDigits n).length ∧
    (10 ^ ((natDigits n).length - 1) ≤ n ∨ (natDigits n).length = 1) :=
  digitsAux_spec 24 n (by norm_num) h

theorem toDigitsW_pad (w L n : ℕ) (hL : L ≤ w) (h : n < 10 ^ L) :
    toDigitsW w n = List.replicate (w - L) '0' ++ toDigitsW L n := by
  induction w with
  | zero =>
    have : L = 0 := by omega
    subst this
    rfl
  | succ w ih =>
    rcases Nat.lt_or_ge L (w + 1) with hlt | hge
    · have hw : L ≤ w := by omega
      have hn : n < 10 ^ w := lt_of_lt_of_le h (Nat.pow_le_pow_right (by norm_num) hw)
      rw [toDigitsW_cons0 w n hn, ih hw]
      have : w + 1 - L = (w - L) + 1 := by omega
      rw [this, List.replicate_succ]
      rfl
    · have : L = w + 1 := by omega
      subst this
      have : w + 1 - (w + 1) = 0 := by omega
      rw [this]
      rfl

theorem padNum_eq_toDigitsW (w n : ℕ) (hw1 : 1 ≤ w) (hw : w ≤ 24) (h : n < 10 ^ w) :
    padNum w n = toDigitsW w n := by
  obtain ⟨he, h1, hlt, hge⟩ :=
    natDigits_spec n (lt_of_lt_of_le h (Nat.pow_le_pow_right (by norm_num) hw))
  have hLw : (natDigits n).length ≤ w := by
    by_contra hc
    rcases hge with hge | h1'
    · have : 10 ^ w ≤ 10 ^ ((natDigits n).length - 1) :=
        Nat.pow_le_pow_right (by norm_num) (by omega)
      omega
    · omega
  unfold padNum
  rw [toDigitsW_pad w (natDigits n).length n hLw hlt]
  rw [← he]

theorem padNum_eq_natDigits (w n : ℕ) (h : (natDigits n).length ≥ w) :
    padNum w n = natDigits n := by
  unfold padNum
  rw [Nat.sub_eq_zero_of_le h]
  rfl

theorem digitChar_isDigit : ∀ k < 10, (Nat.digitChar k).isDigit = true := by decide

theorem digitChar_lt_digitChar : ∀ i < 10, ∀ j < 10, i < j →
    Nat.digitChar i < Nat.digitChar j := by decide

theorem toDigitsW_all_digits (w : ℕ) : ∀ n c, c ∈ toDigitsW w n → c.isDigit = true := by
  induction w with
  | zero => intro n c hc; simp [toDigitsW] at hc
  | succ w ih =>
    intro n c hc
    rcases List.mem_append.mp hc with hc | hc
    · exact ih (n / 10) c hc
    · rw [List.mem_singleton.mp hc]
      exact digitChar_isDigit (n % 10) (Nat.mod_lt n (by norm_num))

/-! ### Lexicographic comparison of character lists -/

theorem lex_append_of_lex {xs ys us vs : List Char} (h : List.Lex (· < ·) xs ys)
    (hlen : xs.length = ys.length) : List.Lex (· < ·) (xs ++ us) (ys ++ vs) := by
  induction h with
  | nil => simp at hlen
  | rel hab => exact List.Lex.rel hab
  | cons h ih =>
    refine List.Lex.cons (ih ?_)
    simpa using hlen

theorem lex_append_same {xs : List Char} {us vs : List Char}
    (h : List.Lex (· < ·) us vs) : List.Lex (· < ·) (xs ++ us) (xs ++ vs) := by
  induction xs with
  | nil => exact h
  | cons a t ih => exact List.Lex.cons ih

theorem lex_block {xs ys us vs : List Char} (c : Char) (hlen : xs.length = ys.length)
    (h : List.Lex (· < ·) xs ys ∨ (xs = ys ∧ List.Lex (· < ·) us vs)) :
    List.Lex (· < ·) (xs ++ c :: us) (ys ++ c :: vs) := by
  rcases h with h | ⟨rfl, h⟩
  · exact lex_append_of_lex h hlen
  · exact lex_append_same (List.Lex.cons h)

theorem toDigitsW_lt (w : ℕ) : ∀ a b, a < b → b < 10 ^ w →
    List.Lex (· < ·) (toDigitsW w a) (toDigitsW w b) := by
  induction w with
  | zero =>
    intro a b hab hb
    rw [pow_zero] at hb
    omega
  | succ w ih =>
    intro a b hab hb
    have hb' : b / 10 < 10 ^ w := by
      rw [pow_succ] at hb
      omega
    have hea : toDigitsW (w + 1) a = toDigitsW w (a / 10) ++ [Nat.digitChar (a % 10)] := rfl
    have heb : toDigitsW (w + 1) b = toDigitsW w (b / 10) ++ [Nat.digitChar (b % 10)] := rfl
    rw [hea, heb]
    rcases Nat.lt_or_ge (a / 10) (b / 10) with hd | hd
    · exact lex_append_of_lex (ih _ _ hd hb') (by rw [toDigitsW_length, toDigitsW_length])
    · have hdd : a / 10 = b / 10 := by omega
      have hm : a % 10 < b % 10 := by omega
      rw [hdd]
      exact lex_append_same
        (List.Lex.rel (digitChar_lt_digitChar _ (by omega) _ (by omega) hm))

/-! ### The formatted string, decomposed -/

theorem format_unix_some (s μ : ℕ) (t : ℕ × ℕ × ℕ)
    (ht : rdn_to_ymd (wadd s UNIX_EPOCH / SECONDS_PER_DAY) = some t) :
    format_unix s μ = some (String.mk (padNum 4 t.1
      ++ '-' :: padNum 2 t.2.1
      ++ '-' :: padNum 2 t.2.2
      ++ 'T' :: padNum 2 (wadd s UNIX_EPOCH % SECONDS_PER_DAY / 3600)
      ++ ':' :: padNum 2 (wadd s UNIX_EPOCH % SECONDS_PER_DAY % 3600 / 60)
      ++ ':' :: padNum 2 (wadd s UNIX_EPOCH % SECONDS_PER_DAY % 60)
      ++ '.' :: padNum 6 μ ++ ['Z'])) := by
  unfold format_unix
  rw [ht]
  rfl

theorem marchMonth_mono {d1 d2 : ℕ} (h : d1 ≤ d2) : marchMonth d1 ≤ marchMonth d2 :=
  Nat.div_le_div_right (by omega)

theorem march_year_unique (z y1 y2 : ℕ) (h11 : Fdays y1 < z) (h12 : z ≤ Fdays (y1 + 1))
    (h21 : Fdays y2 < z) (h22 : z ≤ Fdays (y2 + 1)) : y1 = y2 := by
  rcases Nat.lt_trichotomy y1 y2 with h | h | h
  · have := Fdays_mono (show y1 + 1 ≤ y2 by omega)
    omega
  · exact h
  · have := Fdays_mono (show y2 + 1 ≤ y1 by omega)
    omega

/-- Strict lexicographic order on (year, month, day) triples. -/
def TupLt (t1 t2 : ℕ × ℕ × ℕ) : Prop :=
  t1.1 < t2.1 ∨ (t1.1 = t2.1 ∧ (t1.2.1 < t2.2.1 ∨ (t1.2.1 = t2.2.1 ∧ t1.2.2 < t2.2.2)))

theorem tupLt_mk (a b c a' b' c' : ℕ) :
    TupLt (a, b, c) (a', b', c') ↔
      (a < a' ∨ (a = a' ∧ (b < b' ∨ (b = b' ∧ c < c')))) := Iff.rfl

theorem civil_year_lt (y d : ℕ) (hy : y + 1 < U32)
    (hcap : y ≤ 9998 ∨ (y = 9999 ∧ d ≤ 306)) :
    (civilOf y d).1 ≤ 9999 := by
  unfold civilOf
  rcases Nat.lt_or_ge 12 (marchMonth d) with hg | hl
  · rw [if_pos hg]
    show (y + 1) % U32 ≤ 9999
    rw [Nat.mod_eq_of_lt hy]
    rcases hcap with h | ⟨h9, h306⟩
    · omega
    · have hmm := marchMonth_mono h306
      have h12 : marchMonth 306 = 12 := rfl
      omega
  · rw [if_neg (by omega)]
    show y % U32 ≤ 9999
    rw [Nat.mod_eq_of_lt (by omega)]
    omega

theorem civil_fields (y d : ℕ) (hdlo : 1 ≤ d) (hdhi : d ≤ 366) :
    1 ≤ (civilOf y d).2.1 ∧ (civilOf y d).2.1 ≤ 12 ∧
    1 ≤ (civilOf y d).2.2 ∧ (civilOf y d).2.2 ≤ 31 := by
  obtain ⟨h3, h14, hoff, hlen, h31⟩ := monthTable d (by omega) hdlo
  unfold civilOf
  rcases Nat.lt_or_ge 12 (marchMonth d) with hg | hl
  · rw [if_pos hg]
    refine ⟨?_, ?_, ?_, ?_⟩
    · show 1 ≤ marchMonth d - 12
      omega
    · show marchMonth d - 12 ≤ 12
      omega
    · show 1 ≤ d - marchOffs (marchMonth d)
      omega
    · show d - marchOffs (marchMonth d) ≤ 31
      omega
  · rw [if_neg (by omega)]
    refine ⟨?_, ?_, ?_, ?_⟩
    · show 1 ≤ marchMonth d
      omega
    · show marchMonth d ≤ 12
      omega
    · show 1 ≤ d - marchOffs (marchMonth d)
      omega
    · show d - marchOffs (marchMonth d) ≤ 31
      omega

set_option maxHeartbeats 800000 in
theorem civil_lt (y1 d1 y2 d2 : ℕ) (hy2 : y2 + 1 < U32) (hy12 : y1 ≤ y2)
    (hd1lo : 1 ≤ d1) (hd1hi : d1 ≤ 366) (hd2lo : 1 ≤ d2) (hd2hi : d2 ≤ 366)
    (hlt : y1 < y2 ∨ (y1 = y2 ∧ d1 < d2)) :
    TupLt (civilOf y1 d1) (civilOf y2 d2) := by
  obtain ⟨h3a, h14a, hoffa, hlena, h31a⟩ := monthTable d1 (by omega) hd1lo
  obtain ⟨h3b, h14b, hoffb, hlenb, h31b⟩ := monthTable d2 (by omega) hd2lo
  have hs1 : y1 % U32 = y1 := Nat.mod_eq_of_lt (by omega)
  have hs1' : (y1 + 1) % U32 = y1 + 1 := Nat.mod_eq_of_lt (by omega)
  have hs2 : y2 % U32 = y2 := Nat.mod_eq_of_lt (by omega)
  have hs2' : (y2 + 1) % U32 = y2 + 1 := Nat.mod_eq_of_lt hy2
  unfold civilOf
  rcases Nat.lt_or_ge 12 (marchMonth d1) with hg1 | hl1 <;>
    rcases Nat.lt_or_ge 12 (marchMonth d2) with hg2 | hl2
  · rw [if_pos hg1, if_pos hg2, hs1', hs2', tupLt_mk]
    rcases hlt with h | ⟨rfl, hd⟩
    · omega
    · have hmm := marchMonth_mono (le_of_lt hd)
      rcases Nat.lt_or_ge (marchMonth d1) (marchMonth d2) with hmlt | hmge
      · omega
      · have hmeq : marchMonth d1 = marchMonth d2 := by omega
        rw [hmeq]
        omega
  · rw [if_pos hg1, if_neg (by omega), hs1', hs2, tupLt_mk]
    rcases hlt with h | ⟨rfl, hd⟩
    · omega
    · have hmm := marchMonth_mono (le_of_lt hd)
      omega
  · rw [if_neg (by omega), if_pos hg2, hs1, hs2', tupLt_mk]
    omega
  · rw [if_neg (by omega), if_neg (by omega), hs1, hs2, tupLt_mk]
    rcases hlt with h | ⟨rfl, hd⟩
    · omega
    · have hmm := marchMonth_mono (le_of_lt hd)
      rcases Nat.lt_or_ge (marchMonth d1) (marchMonth d2) with hmlt | hmge
      · omega
      · have hmeq : marchMonth d1 = marchMonth d2 := by omega
        rw [hmeq]
        omega

theorem list_lt_of_lex {l1 l2 : List Char} (h : List.Lex (· < ·) l1 l2) : l1 < l2 := h

theorem strings_lt_of_fields
    (Y1 Mo1 D1 H1 Mi1 Se1 Y2 Mo2 D2 H2 Mi2 Se2 μ : ℕ)
    (hY1 : Y1 < 10000) (hY2 : Y2 < 10000)
    (hMo1 : Mo1 < 100) (hMo2 : Mo2 < 100) (hD1 : D1 < 100) (hD2 : D2 < 100)
    (hH1 : H1 < 100) (hH2 : H2 < 100) (hMi1 : Mi1 < 100) (hMi2 : Mi2 < 100)
    (hSe1 : Se1 < 100) (hSe2 : Se2 < 100)
    (hlt : Y1 < Y2 ∨ (Y1 = Y2 ∧ (Mo1 < Mo2 ∨ (Mo1 = Mo2 ∧ (D1 < D2 ∨ (D1 = D2 ∧
      (H1 < H2 ∨ (H1 = H2 ∧ (Mi1 < Mi2 ∨ (Mi1 = Mi2 ∧ Se1 < Se2)))))))))) :
    String.mk (padNum 4 Y1 ++ '-' :: padNum 2 Mo1 ++ '-' :: padNum 2 D1
      ++ 'T' :: padNum 2 H1 ++ ':' :: padNum 2 Mi1 ++ ':' :: padNum 2 Se1
      ++ '.' :: padNum 6 μ ++ ['Z']) <
    String.mk (padNum 4 Y2 ++ '-' :: padNum 2 Mo2 ++ '-' :: padNum 2 D2
      ++ 'T' :: padNum 2 H2 ++ ':' :: padNum 2 Mi2 ++ ':' :: padNum 2 Se2
      ++ '.' :: padNum 6 μ ++ ['Z']) := by
  have p4 : (10 : ℕ) ^ 4 = 10000 := by norm_num
  have p2 : (10 : ℕ) ^ 2 = 100 := by norm_num
  rw [String.lt_iff_toList_lt]
  show (padNum 4 Y1 ++ '-' :: padNum 2 Mo1 ++ '-' :: padNum 2 D1
      ++ 'T' :: padNum 2 H1 ++ ':' :: padNum 2 Mi1 ++ ':' :: padNum 2 Se1
      ++ '.' :: padNum 6 μ ++ ['Z']) <
    (padNum 4 Y2 ++ '-' :: padNum 2 Mo2 ++ '-' :: padNum 2 D2
      ++ 'T' :: padNum 2 H2 ++ ':' :: padNum 2 Mi2 ++ ':' :: padNum 2 Se2
      ++ '.' :: padNum 6 μ ++ ['Z'])
  apply list_lt_of_lex
  rw [padNum_eq_toDigitsW 4 Y1 (by norm_num) (by norm_num) (by rw [p4]; exact hY1),
    padNum_eq_toDigitsW 4 Y2 (by norm_num) (by norm_num) (by rw [p4]; exact hY2),
    padNum_eq_toDigitsW 2 Mo1 (by norm_num) (by norm_num) (by rw [p2]; exact hMo1),
    padNum_eq_toDigitsW 2 Mo2 (by norm_num) (by norm_num) (by rw [p2]; exact hMo2),
    padNum_eq_toDigitsW 2 D1 (by norm_num) (by norm_num) (by rw [p2]; exact hD1),
    padNum_eq_toDigitsW 2 D2 (by norm_num) (by norm_num) (by rw [p2]; exact hD2),
    padNum_eq_toDigitsW 2 H1 (by norm_num) (by norm_num) (by rw [p2]; exact hH1),
    padNum_eq_toDigitsW 2 H2 (by norm_num) (by norm_num) (by rw [p2]; exact hH2),
    padNum_eq_toDigitsW 2 Mi1 (by norm_num) (by norm_num) (by rw [p2]; exact hMi1),
    padNum_eq_toDigitsW 2 Mi2 (by norm_num) (by norm_num) (by rw [p2]; exact hMi2),
    padNum_eq_toDigitsW 2 Se1 (by norm_num) (by norm_num) (by rw [p2]; exact hSe1),
    padNum_eq_toDigitsW 2 Se2 (by norm_num) (by norm_num) (by rw [p2]; exact hSe2)]
  simp only [List.append_assoc, List.cons_append]
  refine lex_block '-' (by rw [toDigitsW_length, toDigitsW_length]) ?_
  rcases hlt with h | ⟨rfl, hlt⟩
  · exact Or.inl (toDigitsW_lt 4 _ _ h (by rw [p4]; exact hY2))
  refine Or.inr ⟨rfl, ?_⟩
  refine lex_block '-' (by rw [toDigitsW_length, toDigitsW_length]) ?_
  rcases hlt with h | ⟨rfl, hlt⟩
  · exact Or.inl (toDigitsW_lt 2 _ _ h (by rw [p2]; exact hMo2))
  refine Or.inr ⟨rfl, ?_⟩
  refine lex_block 'T' (by rw [toDigitsW_length, toDigitsW_length]) ?_
  rcases hlt with h | ⟨rfl, hlt⟩
  · exact Or.inl (toDigitsW_lt 2 _ _ h (by rw [p2]; exact hD2))
  refine Or.inr ⟨rfl, ?_⟩
  refine lex_block ':' (by rw [toDigitsW_length, toDigitsW_length]) ?_
  rcases hlt with h | ⟨rfl, hlt⟩
  · exact Or.inl (toDigitsW_lt 2 _ _ h (by rw [p2]; exact hH2))
  refine Or.inr ⟨rfl, ?_⟩
  refine lex_block ':' (by rw [toDigitsW_length, toDigitsW_length]) ?_
  rcases hlt with h | ⟨rfl, hlt⟩
  · exact Or.inl (toDigitsW_lt 2 _ _ h (by rw [p2]; exact hMi2))
  refine Or.inr ⟨rfl, ?_⟩
  refine lex_block '.' (by rw [toDigitsW_length, toDigitsW_length]) ?_
  exact Or.inl (toDigitsW_lt 2 _ _ hlt (by rw [p2]; exact hSe2))

set_option maxHeartbeats 2000000 in
set_option maxRecDepth 4000 in
/-- Claim C7 (amended): lexicographic monotonicity for timestamps up to
9999-12-31T23:59:59Z. -/
theorem c7_mono (μ s1 s2 : ℕ) (h12 : s1 < s2) (hs2 : s2 ≤ 253402300799) (hμ : μ < U32)
    (t1 t2 : String) (ht1 : format_unix s1 μ = some t1)
    (ht2 : format_unix s2 μ = some t2) : t1 < t2 := by
  have hF9999 : Fdays 9999 = 3652059 := by unfold Fdays; norm_num
  have hF10k := Fdays_add_one 9999
  have hw1 : wadd s1 UNIX_EPOCH = s1 + 62135683200 := by
    unfold wadd UNIX_EPOCH U64
    omega
  have hw2 : wadd s2 UNIX_EPOCH = s2 + 62135683200 := by
    unfold wadd UNIX_EPOCH U64
    omega
  have hsp : SECONDS_PER_DAY = 86400 := rfl
  obtain ⟨y1, h1a, h1b⟩ := exists_march_year ((s1 + 62135683200) / 86400 + 306) (by omega)
  obtain ⟨y2, h2a, h2b⟩ := exists_march_year ((s2 + 62135683200) / 86400 + 306) (by omega)
  have hy1cap : y1 ≤ 9998 ∨ (y1 = 9999 ∧ (s1 + 62135683200) / 86400 + 306 - Fdays y1 ≤ 306) := by
    rcases Nat.lt_or_ge y1 9999 with h | h
    · left; omega
    · have hy10k : y1 < 10000 := by
        by_contra hc
        have := Fdays_mono (show 9999 + 1 ≤ y1 by omega)
        omega
      right
      have : y1 = 9999 := by omega
      subst this
      omega
  have hy2cap : y2 ≤ 9998 ∨ (y2 = 9999 ∧ (s2 + 62135683200) / 86400 + 306 - Fdays y2 ≤ 306) := by
    rcases Nat.lt_or_ge y2 9999 with h | h
    · left; omega
    · have hy10k : y2 < 10000 := by
        by_contra hc
        have := Fdays_mono (show 9999 + 1 ≤ y2 by omega)
        omega
      right
      have : y2 = 9999 := by omega
      subst this
      omega
  have hy1U : y1 + 1 < U32 := by unfold U32; omega
  have hy2U : y2 + 1 < U32 := by unfold U32; omega
  have hd1lo : 1 ≤ (s1 + 62135683200) / 86400 + 306 - Fdays y1 := by omega
  have hd2lo : 1 ≤ (s2 + 62135683200) / 86400 + 306 - Fdays y2 := by omega
  have hd1hi : (s1 + 62135683200) / 86400 + 306 - Fdays y1 ≤ 366 := by
    have := Fdays_add_one y1
    omega
  have hd2hi : (s2 + 62135683200) / 86400 + 306 - Fdays y2 ≤ 366 := by
    have := Fdays_add_one y2
    omega
  have hr1 : (s1 + 62135683200) / 86400 ≤ RMAX := by unfold RMAX; omega
  have hr2 : (s2 + 62135683200) / 86400 ≤ RMAX := by unfold RMAX; omega
  have hmain1 : rdn_to_ymd (wadd s1 UNIX_EPOCH / SECONDS_PER_DAY) =
      some (civilOf y1 ((s1 + 62135683200) / 86400 + 306 - Fdays y1)) := by
    rw [hw1, hsp]
    exact rdn_to_ymd_eq _ y1 hr1 h1a h1b
  have hmain2 : rdn_to_ymd (wadd s2 UNIX_EPOCH / SECONDS_PER_DAY) =
      some (civilOf y2 ((s2 + 62135683200) / 86400 + 306 - Fdays y2)) := by
    rw [hw2, hsp]
    exact rdn_to_ymd_eq _ y2 hr2 h2a h2b
  have hft1 := format_unix_some s1 μ _ hmain1
  have hft2 := format_unix_some s2 μ _ hmain2
  rw [ht1] at hft1
  rw [ht2] at hft2
  have hft1 := Option.some.inj hft1
  have hft2 := Option.some.inj hft2
  rw [hw1, hsp] at hft1
  rw [hw2, hsp] at hft2
  rw [hft1, hft2]
  obtain ⟨hf1a, hf1b, hf1c, hf1d⟩ := civil_fields y1 _ hd1lo hd1hi
  obtain ⟨hf2a, hf2b, hf2c, hf2d⟩ := civil_fields y2 _ hd2lo hd2hi
  have hY1 := civil_year_lt y1 _ hy1U hy1cap
  have hY2 := civil_year_lt y2 _ hy2U hy2cap
  apply strings_lt_of_fields
  · omega
  · omega
  · omega
  · omega
  · omega
  · omega
  · omega
  · omega
  · omega
  · omega
  · omega
  · omega
  · -- the ordered-fields disjunction
    rcases Nat.lt_or_ge ((s1 + 62135683200) / 86400) ((s2 + 62135683200) / 86400)
      with hrlt | hrge
    · -- different days: the date triple strictly increases
      have hzlt : (s1 + 62135683200) / 86400 + 306 < (s2 + 62135683200) / 86400 + 306 := by
        omega
      have hyle : y1 ≤ y2 := by
        by_contra hc
        have := Fdays_mono (show y2 + 1 ≤ y1 by omega)
        omega
      have hyd : y1 < y2 ∨ (y1 = y2 ∧
          (s1 + 62135683200) / 86400 + 306 - Fdays y1 <
          (s2 + 62135683200) / 86400 + 306 - Fdays y2) := by
        rcases Nat.lt_or_ge y1 y2 with h | h
        · left; exact h
        · right
          have : y1 = y2 := by omega
          subst this
          exact ⟨rfl, by omega⟩
      have htup := civil_lt y1 _ y2 _ hy2U hyle hd1lo hd1hi hd2lo hd2hi hyd
      unfold TupLt at htup
      rcases htup with h | ⟨he, h'⟩
      · exact Or.inl h
      · refine Or.inr ⟨he, ?_⟩
        rcases h' with h | ⟨he', h''⟩
        · exact Or.inl h
        · exact Or.inr ⟨he', Or.inl h''⟩
    · -- same day: the dates agree and the time of day strictly increases
      have hreq : (s1 + 62135683200) / 86400 = (s2 + 62135683200) / 86400 := by omega
      have hyeq : y1 = y2 :=
        march_year_unique ((s1 + 62135683200) / 86400 + 306) y1 y2 h1a h1b
          (by rw [hreq]; exact h2a) (by rw [hreq]; exact h2b)
      subst hyeq
      have hdeq : (s1 + 62135683200) / 86400 + 306 - Fdays y1 =
          (s2 + 62135683200) / 86400 + 306 - Fdays y1 := by omega
      rw [hdeq]
      refine Or.inr ⟨rfl, Or.inr ⟨rfl, Or.inr ⟨rfl, ?_⟩⟩⟩
      have hsod : (s1 + 62135683200) % 86400 < (s2 + 62135683200) % 86400 := by omega
      omega

theorem strmk_length (l : List Char) : (String.mk l).length = l.length := rfl

/-- Numeric value of a list of decimal digit characters. -/
def digitsVal (l : List Char) : ℕ := l.foldl (fun acc c => 10 * acc + (c.toNat - 48)) 0

theorem digitChar_toNat : ∀ k < 10, (Nat.digitChar k).toNat = 48 + k := by decide

theorem foldl_toDigitsW (w : ℕ) : ∀ n acc, n < 10 ^ w →
    List.foldl (fun acc c => 10 * acc + (c.toNat - 48)) acc (toDigitsW w n) =
      acc * 10 ^ w + n := by
  induction w with
  | zero =>
    intro n acc hn
    rw [pow_zero] at hn ⊢
    show acc = acc * 1 + n
    omega
  | succ w ih =>
    intro n acc hn
    have hd : n / 10 < 10 ^ w := by
      rw [pow_succ] at hn
      omega
    show List.foldl _ acc (toDigitsW w (n / 10) ++ [Nat.digitChar (n % 10)]) = _
    rw [List.foldl_append, ih (n / 10) acc hd]
    show 10 * (acc * 10 ^ w + n / 10) + ((Nat.digitChar (n % 10)).toNat - 48) =
      acc * 10 ^ (w + 1) + n
    rw [digitChar_toNat (n % 10) (Nat.mod_lt n (by norm_num)), pow_succ]
    have : acc * (10 ^ w * 10) = 10 * (acc * 10 ^ w) := by ring
    omega

theorem digitsVal_natDigits (n : ℕ) (h : n < 10 ^ 24) :
    digitsVal (natDigits n) = n := by
  obtain ⟨he, h1, hlt, _⟩ := natDigits_spec n h
  unfold digitsVal
  rw [he, foldl_toDigitsW _ n 0 hlt]
  omega

theorem natDigits_long (n : ℕ) (hlo : 1000000 ≤ n) (hhi : n < 10 ^ 24) :
    7 ≤ (natDigits n).length := by
  obtain ⟨he, h1, hlt, _⟩ := natDigits_spec n hhi
  by_contra hc
  have : (10 : ℕ) ^ (natDigits n).length ≤ 10 ^ 6 :=
    Nat.pow_le_pow_right (by norm_num) (by omega)
  have h6 : (10 : ℕ) ^ 6 = 1000000 := by norm_num
  omega

theorem padNum_all_digits (w n : ℕ) (h : n < 10 ^ 24) :
    ∀ c ∈ padNum w n, c.isDigit = true := by
  intro c hc
  rcases List.mem_append.mp hc with hc | hc
  · rw [List.eq_of_mem_replicate hc]
    decide
  · obtain ⟨he, _, _, _⟩ := natDigits_spec n h
    rw [he] at hc
    exact toDigitsW_all_digits _ _ c hc

theorem not_dot_of_digits {X : List Char} (hX : ∀ c ∈ X, c.isDigit = true) :
    ('.' : Char) ∉ X := by
  intro hmem
  have := hX _ hmem
  revert this
  decide

theorem not_dot_append {X : List Char} {c0 : Char} {Y : List Char}
    (hX : ('.' : Char) ∉ X) (hc0 : c0 ≠ '.') (hY : ('.' : Char) ∉ Y) :
    ('.' : Char) ∉ X ++ c0 :: Y := by
  intro h
  rcases List.mem_append.mp h with h | h
  · exact hX h
  · rcases List.mem_cons.mp h with h | h
    · exact hc0 h.symm
    · exact hY h

theorem civil_year_U32 (y d : ℕ) : (civilOf y d).1 < U32 := by
  unfold civilOf
  split
  · show (y + 1) % U32 < U32
    exact Nat.mod_lt _ (by unfold U32; omega)
  · show y % U32 < U32
    exact Nat.mod_lt _ (by unfold U32; omega)

theorem split_at_dot (A B C D E F G : List Char) :
    A ++ '-' :: B ++ '-' :: C ++ 'T' :: D ++ ':' :: E ++ ':' :: F ++ '.' :: G ++ ['Z'] =
    (A ++ '-' :: B ++ '-' :: C ++ 'T' :: D ++ ':' :: E ++ ':' :: F) ++ '.' :: (G ++ ['Z']) := by
  simp [List.append_assoc]

/-- Claim C9: when `micros ≥ 10^6` the fractional field of the output is
the full decimal representation of `micros` (at least 7 digits, numeric
value exactly `micros`), not `micros` reduced modulo `10^6` and not an
error. -/
theorem c9_wide_micros (s μ : ℕ) (hs : s < U64) (hμlo : 1000000 ≤ μ) (hμhi : μ < U32)
    (t : String) (ht : format_unix s μ = some t) :
    ∃ pre, t.data = pre ++ '.' :: (natDigits μ ++ ['Z']) ∧ ('.' : Char) ∉ pre ∧
      7 ≤ (natDigits μ).length ∧ digitsVal (natDigits μ) = μ ∧
      (∀ c ∈ natDigits μ, c.isDigit = true) := by
  have hr := rdnReach s
  obtain ⟨y, h1, h2⟩ := exists_march_year (wadd s UNIX_EPOCH / SECONDS_PER_DAY + 306)
    (le_trans (by norm_num) (Nat.le_add_left 306 _))
  have hmain := rdn_to_ymd_eq _ y hr h1 h2
  have hft := format_unix_some s μ _ hmain
  rw [ht] at hft
  have hft := Option.some.inj hft
  have h24 : (10 : ℕ) ^ 24 = 1000000000000000000000000 := by norm_num
  have hμ24 : μ < 10 ^ 24 := by
    unfold U32 at hμhi
    omega
  have hlong := natDigits_long μ hμlo hμ24
  have hp6 : padNum 6 μ = natDigits μ := padNum_eq_natDigits 6 μ (by omega)
  rw [hp6] at hft
  -- bounds on the six date-time fields, all far below 10^24
  have hrdlo : 1 ≤ wadd s UNIX_EPOCH / SECONDS_PER_DAY + 306 - Fdays y := by
    have h365 := Fdays_add_one y
    omega
  have hrdhi : wadd s UNIX_EPOCH / SECONDS_PER_DAY + 306 - Fdays y ≤ 366 := by
    have h365 := Fdays_add_one y
    omega
  obtain ⟨hfa, hfb, hfc, hfd⟩ := civil_fields y _ hrdlo hrdhi
  have hyU := civil_year_U32 y (wadd s UNIX_EPOCH / SECONDS_PER_DAY + 306 - Fdays y)
  have hsod : wadd s UNIX_EPOCH % SECONDS_PER_DAY < 86400 :=
    Nat.mod_lt _ (by norm_num [SECONDS_PER_DAY])
  have hU32 : U32 ≤ 10 ^ 24 := by
    unfold U32
    omega
  set Y := (civilOf y (wadd s UNIX_EPOCH / SECONDS_PER_DAY + 306 - Fdays y)).1 with hYd
  set Mo := (civilOf y (wadd s UNIX_EPOCH / SECONDS_PER_DAY + 306 - Fdays y)).2.1 with hMod
  set D := (civilOf y (wadd s UNIX_EPOCH / SECONDS_PER_DAY + 306 - Fdays y)).2.2 with hDd
  set H := wadd s UNIX_EPOCH % SECONDS_PER_DAY / 3600 with hHd
  set Mi := wadd s UNIX_EPOCH % SECONDS_PER_DAY % 3600 / 60 with hMid
  set Se := wadd s UNIX_EPOCH % SECONDS_PER_DAY % 60 with hSed
  have hdY := padNum_all_digits 4 Y (by omega)
  have hdMo := padNum_all_digits 2 Mo (by omega)
  have hdD := padNum_all_digits 2 D (by omega)
  have hdH := padNum_all_digits 2 H (by omega)
  have hdMi := padNum_all_digits 2 Mi (by omega)
  have hdSe := padNum_all_digits 2 Se (by omega)
  have hdata : t.data = padNum 4 Y ++ '-' :: padNum 2 Mo ++ '-' :: padNum 2 D
      ++ 'T' :: padNum 2 H ++ ':' :: padNum 2 Mi ++ ':' :: padNum 2 Se
      ++ '.' :: natDigits μ ++ ['Z'] := by
    rw [hft]
  refine ⟨padNum 4 Y ++ '-' :: padNum 2 Mo ++ '-' :: padNum 2 D
      ++ 'T' :: padNum 2 H ++ ':' :: padNum 2 Mi ++ ':' :: padNum 2 Se, ?_, ?_,
      hlong, digitsVal_natDigits μ hμ24, ?_⟩
  · rw [hdata, split_at_dot]
  · refine not_dot_append (not_dot_append (not_dot_append (not_dot_append (not_dot_append
      (not_dot_of_digits hdY) (by decide) (not_dot_of_digits hdMo)) (by decide)
      (not_dot_of_digits hdD)) (by decide) (not_dot_of_digits hdH)) (by decide)
      (not_dot_of_digits hdMi)) (by decide) (not_dot_of_digits hdSe)
  · intro c hc
    obtain ⟨he, _, _, _⟩ := natDigits_spec μ hμ24
    rw [he] at hc
    exact toDigitsW_all_digits _ _ c hc

theorem len27 (A B C D E F G : List Char) (hA : A.length = 4) (hB : B.length = 2)
    (hC : C.length = 2) (hD : D.length = 2) (hE : E.length = 2) (hF : F.length = 2)
    (hG : G.length = 6) :
    (A ++ '-' :: B ++ '-' :: C ++ 'T' :: D ++ ':' :: E ++ ':' :: F
      ++ '.' :: G ++ ['Z']).length = 27 := by
  simp [List.length_append, hA, hB, hC, hD, hE, hF, hG]

set_option maxHeartbeats 1000000 in
/-- Claim C6 (amended): for seconds up to 253402300799 (year 9999) and
micros below 10^6 the output is exactly 27 characters: a 4-digit year,
2-digit month, day, hour, minute and second fields and a 6-digit
zero-padded microsecond field, joined by the fixed separators and a
trailing `Z`. -/
theorem c6_shape (s μ : ℕ) (hs : s ≤ 253402300799) (hμ : μ < 1000000) (t : String)
    (ht : format_unix s μ = some t) :
    t.length = 27 ∧
    ∃ fY fMo fD fH fMi fSe fU : List Char,
      t.data = fY ++ '-' :: fMo ++ '-' :: fD ++ 'T' :: fH ++ ':' :: fMi ++ ':' :: fSe
        ++ '.' :: fU ++ ['Z'] ∧
      fY.length = 4 ∧ fMo.length = 2 ∧ fD.length = 2 ∧ fH.length = 2 ∧
      fMi.length = 2 ∧ fSe.length = 2 ∧ fU.length = 6 ∧
      (∀ c, (c ∈ fY ∨ c ∈ fMo ∨ c ∈ fD ∨ c ∈ fH ∨ c ∈ fMi ∨ c ∈ fSe ∨ c ∈ fU) →
        c.isDigit = true) := by
  have hF9999 : Fdays 9999 = 3652059 := by unfold Fdays; norm_num
  have hF10k := Fdays_add_one 9999
  have hw : wadd s UNIX_EPOCH = s + 62135683200 := by
    unfold wadd UNIX_EPOCH U64
    omega
  have hsp : SECONDS_PER_DAY = 86400 := rfl
  obtain ⟨y, h1, h2⟩ := exists_march_year ((s + 62135683200) / 86400 + 306) (by omega)
  have hycap : y ≤ 9998 ∨ (y = 9999 ∧ (s + 62135683200) / 86400 + 306 - Fdays y ≤ 306) := by
    rcases Nat.lt_or_ge y 9999 with h | h
    · left; omega
    · have hy10k : y < 10000 := by
        by_contra hc
        have := Fdays_mono (show 9999 + 1 ≤ y by omega)
        omega
      right
      have : y = 9999 := by omega
      subst this
      omega
  have hyU : y + 1 < U32 := by unfold U32; omega
  have hdlo : 1 ≤ (s + 62135683200) / 86400 + 306 - Fdays y := by omega
  have hdhi : (s + 62135683200) / 86400 + 306 - Fdays y ≤ 366 := by
    have := Fdays_add_one y
    omega
  have hr : (s + 62135683200) / 86400 ≤ RMAX := by unfold RMAX; omega
  have hmain : rdn_to_ymd (wadd s UNIX_EPOCH / SECONDS_PER_DAY) =
      some (civilOf y ((s + 62135683200) / 86400 + 306 - Fdays y)) := by
    rw [hw, hsp]
    exact rdn_to_ymd_eq _ y hr h1 h2
  have hft := format_unix_some s μ _ hmain
  rw [ht] at hft
  have hft := Option.some.inj hft
  rw [hw, hsp] at hft
  obtain ⟨hfa, hfb, hfc, hfd⟩ := civil_fields y _ hdlo hdhi
  have hY9999 := civil_year_lt y _ hyU hycap
  have p4 : (10 : ℕ) ^ 4 = 10000 := by norm_num
  have p2 : (10 : ℕ) ^ 2 = 100 := by norm_num
  have p6 : (10 : ℕ) ^ 6 = 1000000 := by norm_num
  rw [padNum_eq_toDigitsW 4 _ (by norm_num) (by norm_num) (by rw [p4]; omega),
    padNum_eq_toDigitsW 2 ((civilOf y ((s + 62135683200) / 86400 + 306 - Fdays y)).2.1)
      (by norm_num) (by norm_num) (by rw [p2]; omega),
    padNum_eq_toDigitsW 2 ((civilOf y ((s + 62135683200) / 86400 + 306 - Fdays y)).2.2)
      (by norm_num) (by norm_num) (by rw [p2]; omega),
    padNum_eq_toDigitsW 2 ((s + 62135683200) % 86400 / 3600)
      (by norm_num) (by norm_num) (by rw [p2]; omega),
    padNum_eq_toDigitsW 2 ((s + 62135683200) % 86400 % 3600 / 60)
      (by norm_num) (by norm_num) (by rw [p2]; omega),
    padNum_eq_toDigitsW 2 ((s + 62135683200) % 86400 % 60)
      (by norm_num) (by norm_num) (by rw [p2]; omega),
    padNum_eq_toDigitsW 6 μ (by norm_num) (by norm_num) (by rw [p6]; omega)] at hft
  constructor
  · rw [hft, strmk_length]
    exact len27 _ _ _ _ _ _ _ (toDigitsW_length 4 _) (toDigitsW_length 2 _)
      (toDigitsW_length 2 _) (toDigitsW_length 2 _) (toDigitsW_length 2 _)
      (toDigitsW_length 2 _) (toDigitsW_length 6 _)
  · refine ⟨_, _, _, _, _, _, _, by rw [hft], toDigitsW_length 4 _, toDigitsW_length 2 _,
      toDigitsW_length 2 _, toDigitsW_length 2 _, toDigitsW_length 2 _, toDigitsW_length 2 _,
      toDigitsW_length 6 _, ?_⟩
    intro c hc
    rcases hc with hc | hc | hc | hc | hc | hc | hc <;> exact toDigitsW_all_digits _ _ c hc

/-! ### The claims -/

/-- Claim C1: the three documented point tests of `format_unix` hold:
the Unix epoch, 2021-01-01, and the microseconds example from the
crate's test suite. -/
theorem c1_documented_points :
    format_unix 0 0 = some "1970-01-01T00:00:00.000000Z" ∧
    format_unix 1609459200 0 = some "2021-01-01T00:00:00.000000Z" ∧
    format_unix 1445470140 123456 = some "2015-10-21T23:29:00.123456Z" :=
  ⟨by decide, by decide, by decide⟩

/-- Claim C2: Gregorian leap-year boundary behaviour: 2020-02-29 and
2000-02-29 (divisible by 400) format as 29 February; 2100 (century,
not divisible by 400) has no 29 February — one second after
2100-02-28T23:59:59Z is 2100-03-01. -/
theorem c2_leap_rules :
    format_unix 1582934400 0 = some "2020-02-29T00:00:00.000000Z" ∧
    format_unix 951782400 0 = some "2000-02-29T00:00:00.000000Z" ∧
    format_unix 951868799 0 = some "2000-02-29T23:59:59.000000Z" ∧
    format_unix 4107542399 0 = some "2100-02-28T23:59:59.000000Z" ∧
    format_unix 4107542400 0 = some "2100-03-01T00:00:00.000000Z" ∧
    leap 2020 = true ∧ leap 2000 = true ∧ leap 2100 = false :=
  ⟨by decide, by decide, by decide, by decide, by decide, by decide, by decide, by decide⟩

/-- Claim C3 counterexample: at day count 1568705286264 the computed
year (4294969196, a leap year) is truncated `as u32` to 1900 (not a
leap year), so the function returns 29 February 1900 — not a valid
proleptic-Gregorian date. -/
theorem c3_counterexample :
    rdn_to_ymd 1568705286264 = some (1900, 2, 29) ∧ ¬ ValidDate (1900, 2, 29) :=
  ⟨by decide, by decide⟩

/-- Claim C3 witness. -/
theorem c3_witness : ValidDate (1970, 1, 1) :=
  c3_valid 719163 (by norm_num) (1970, 1, 1) (by decide)

/-- Claim C4 counterexample: day count 1568704592244 maps to
(4294967295, 12, 31); its successor day maps to (0, 1, 1) because the
incremented year 2^32 is truncated `as u32` to 0, which is not the
calendar successor of 31 December 4294967295. -/
theorem c4_counterexample :
    rdn_to_ymd 1568704592244 = some (4294967295, 12, 31) ∧
    rdn_to_ymd 1568704592245 = some (0, 1, 1) ∧
    gregSucc (4294967295, 12, 31) ≠ (0, 1, 1) :=
  ⟨by decide, by decide, by decide⟩

/-- Claim C4 witness. -/
theorem c4_witness : rdn_to_ymd (719163 + 1) = some (gregSucc (1970, 1, 1)) :=
  c4_succ 719163 (by norm_num) (1970, 1, 1) (by decide)

/-- Claim C5 counterexample: day count 0 does not map to 1 March of
year 0. -/
theorem c5_counterexample : rdn_to_ymd 0 ≠ some (0, 3, 1) := by decide

/-- Claim C5 (amended): day count 0 of the reference epoch is
31 December of year 0 (equivalently, day 1 is 1 January of year 1), and
the Unix epoch maps to day count `UNIX_EPOCH / 86400 = 719163`, which
converts to 1970-01-01. -/
theorem c5_epoch :
    rdn_to_ymd 0 = some (0, 12, 31) ∧ rdn_to_ymd 1 = some (1, 1, 1) ∧
    UNIX_EPOCH % SECONDS_PER_DAY = 0 ∧ UNIX_EPOCH / SECONDS_PER_DAY = 719163 ∧
    wadd 0 UNIX_EPOCH / SECONDS_PER_DAY = 719163 ∧
    rdn_to_ymd 719163 = some (1970, 1, 1) :=
  ⟨by decide, by decide, by decide, by decide, by decide, by decide⟩

/-- Claim C6 counterexample: one second past 9999-12-31T23:59:59Z the
year field takes five digits and the output is 28 characters, not 27,
even though micros < 10^6. -/
theorem c6_counterexample :
    format_unix 253402300800 0 = some "10000-01-01T00:00:00.000000Z" ∧
    ("10000-01-01T00:00:00.000000Z" : String).length ≠ 27 :=
  ⟨by decide, by decide⟩

/-- Claim C6 witness. -/
theorem c6_witness : ("1970-01-01T00:00:00.000000Z" : String).length = 27 ∧
    ∃ fY fMo fD fH fMi fSe fU : List Char,
      ("1970-01-01T00:00:00.000000Z" : String).data =
        fY ++ '-' :: fMo ++ '-' :: fD ++ 'T' :: fH ++ ':' :: fMi ++ ':' :: fSe
        ++ '.' :: fU ++ ['Z'] ∧
      fY.length = 4 ∧ fMo.length = 2 ∧ fD.length = 2 ∧ fH.length = 2 ∧
      fMi.length = 2 ∧ fSe.length = 2 ∧ fU.length = 6 ∧
      (∀ c, (c ∈ fY ∨ c ∈ fMo ∨ c ∈ fD ∨ c ∈ fH ∨ c ∈ fMi ∨ c ∈ fSe ∨ c ∈ fU) →
        c.isDigit = true) :=
  c6_shape 0 0 (by norm_num) (by norm_num) "1970-01-01T00:00:00.000000Z" (by decide)

/-- Claim C7 counterexample: crossing into year 10000 the year field
widens to five digits and string order inverts: the string for the
later instant compares before the string for 9999-12-31T23:59:59Z. -/
theorem c7_counterexample :
    (253402300799 : ℕ) < 253402300800 ∧
    format_unix 253402300799 0 = some "9999-12-31T23:59:59.000000Z" ∧
    format_unix 253402300800 0 = some "10000-01-01T00:00:00.000000Z" ∧
    ¬ (("9999-12-31T23:59:59.000000Z" : String) < "10000-01-01T00:00:00.000000Z") ∧
    ("10000-01-01T00:00:00.000000Z" : String) < "9999-12-31T23:59:59.000000Z" := by
  refine ⟨by norm_num, by decide, by decide, ?_, ?_⟩
  · rw [String.lt_iff_toList_lt]
    decide
  · rw [String.lt_iff_toList_lt]
    decide

/-- Claim C7 witness. -/
theorem c7_witness :
    ("1970-01-01T00:00:00.000000Z" : String) < "1970-01-01T00:00:01.000000Z" :=
  c7_mono 0 0 1 (by norm_num) (by norm_num) (by decide)
    "1970-01-01T00:00:00.000000Z" "1970-01-01T00:00:01.000000Z" (by decide) (by decide)

/-- Claim C8 witness. -/
theorem c8_witness : (format_unix 0 0).isSome = true :=
  c8_total 0 0 (by decide) (by decide)

/-- Claim C9 witness. -/
theorem c9_witness :
    ∃ pre, ("1970-01-01T00:00:00.1000000Z" : String).data =
        pre ++ '.' :: (natDigits 1000000 ++ ['Z']) ∧ ('.' : Char) ∉ pre ∧
      7 ≤ (natDigits 1000000).length ∧ digitsVal (natDigits 1000000) = 1000000 ∧
      (∀ c ∈ natDigits 1000000, c.isDigit = true) :=
  c9_wide_micros 0 1000000 (by decide) (by norm_num) (by decide)
    "1970-01-01T00:00:00.1000000Z" (by decide)

/-- Claim C10 witness. -/
theorem c10_witness :
    1 ≤ ymdM (wadd 0 UNIX_EPOCH / SECONDS_PER_DAY) ∧
    ymdM (wadd 0 UNIX_EPOCH / SECONDS_PER_DAY) < DAY_OFFSETS.length ∧
    DAY_OFFSETS.getD (ymdM (wadd 0 UNIX_EPOCH / SECONDS_PER_DAY)) 0 ≤
      ymdD (wadd 0 UNIX_EPOCH / SECONDS_PER_DAY) :=
  c10_index_safe 0 (by decide)
